import Mathlib

/-!
# Field-of-Dreams game server (`Field-of-Dreams/main.cpp`)

A shallow embedding of the `Game` session record and of the `GameServer`
event dispatcher, followed by theorems about them.

Modelling conventions.

* A C++ `char` is a Lean `Char`; `'\0'` is `Char.ofNat 0`.  Only equality of
  characters and the test against zero are used by the program.
* `std::string` is `List Char`, `std::vector<bool>` is `List Bool`, `int` is
  `Int` (no arithmetic on it is performed by the modelled code).
* `std::unordered_map<int, Game>` is an association list; the operations
  `find`, `insert`, `erase`, `operator[]` are given below with the semantics
  of the standard library (in particular `insert` never overwrites and
  `operator[]` default-constructs a missing entry).
* Indexing a `std::vector<bool>` outside its size is undefined in C++.  The
  model reads `false` there and ignores a store; every `Game` that the
  program builds has `guessed.size() == word.size()`, and this is proved
  to be preserved.
* System calls are recorded in a trace, and the kernel-side epoll interest
  list is part of the state.  The results of `accept` and `read` are
  supplied by the environment with each event.
-/

namespace FieldOfDreams

/-! ## `struct Game` -/

/-- The terminator character `'\0'`. -/
def NUL : Char := Char.ofNat 0

/-- The per-connection record `struct Game`. -/
structure Game where
  word : List Char
  guessed : List Bool
  attempts : Int
  deriving DecidableEq, Repr

/-- The defaulted constructor `Game() = default`. -/
instance : Inhabited Game := ⟨⟨[], [], 0⟩⟩

/-- The constructor `Game(word, attempts)`: `guessed(word.size(), false)`. -/
def Game.new (word : List Char) (attempts : Int) : Game :=
  ⟨word, List.replicate word.length false, attempts⟩

/-- One iteration of the loop of `Game::Complete` at index `i`, acting on the
pair `(guessed, completed)`:
`if (letter == word[i]) guessed[i] = true; if (!word[i]) completed = false;` -/
def Game.CompleteStep (word : List Char) (letter : Char)
    (st : List Bool × Bool) (i : Nat) : List Bool × Bool :=
  (if letter = word.getD i NUL then st.1.set i true else st.1,
   if word.getD i NUL = NUL then false else st.2)

/-- The method `bool Game::Complete(char letter)`: the returned flag together
with the updated object. -/
def Game.Complete (g : Game) (letter : Char) : Bool × Game :=
  let r := (List.range g.word.length).foldl (Game.CompleteStep g.word letter) (g.guessed, true)
  (r.2, { g with guessed := r.1 })

/-- The state of a `Game` built by `Game(word, attempts)` after the calls
`Complete(l)` for the letters `l` of `letters`, in order. -/
def Game.after (word : List Char) (attempts : Int) (letters : List Char) : Game :=
  letters.foldl (fun g l => (g.Complete l).2) (Game.new word attempts)

/-! ## Kernel interface -/

/-- The readiness flag `EPOLLIN` of `<sys/epoll.h>`. -/
def EPOLLIN : Nat := 0x001

/-- The readiness flag `EPOLLHUP` of `<sys/epoll.h>`. -/
def EPOLLHUP : Nat := 0x010

/-- The part of `struct epoll_event` that the program reads: the flag word
`events` and the descriptor `data.fd`. -/
structure epoll_event where
  events : Nat
  fd : Int
  deriving DecidableEq, Repr

/-- A system call issued by the server, with the arguments that matter. -/
inductive Syscall where
  | shutdown (fd : Int)
  | close (fd : Int)
  | fcntl (fd : Int)
  | epoll_ctl_add (fd : Int) (events : Nat)
  | epoll_ctl_del (fd : Int)
  | epoll_wait
  | accept (fd : Int)
  | read (fd : Int)
  | write (fd : Int) (bytes : List Char)
  deriving DecidableEq, Repr

/-- What the environment answers while one event is processed.
`accept_ret` is the value returned by `accept` (a fresh descriptor, or `-1`).
`read_ret` is `none` when `read` returns `-1`, and `some data` when it
returns `data.length` after storing `data` at the start of the buffer. -/
structure Env where
  accept_ret : Int
  read_ret : Option (List Char)
  deriving DecidableEq, Repr

/-! ## `std::unordered_map<int, Game>` -/

namespace Registry

/-- Lookup, `games_.find(k)`. -/
def find (k : Int) : List (Int × Game) → Option Game
  | [] => none
  | p :: m => if p.1 = k then some p.2 else find k m

/-- The handles present in the map. -/
def keys (m : List (Int × Game)) : List Int := m.map Prod.fst

/-- The call `games_.erase(k)`. -/
def erase (k : Int) (m : List (Int × Game)) : List (Int × Game) :=
  m.filter (fun p => decide (p.1 ≠ k))

/-- The call `games_.insert(std::make_pair(k, v))`: an existing entry is kept. -/
def insert (k : Int) (v : Game) (m : List (Int × Game)) : List (Int × Game) :=
  if (find k m).isSome then m else m ++ [(k, v)]

/-- The map after evaluating `games_[k]`: a missing entry is created with a
default-constructed `Game`. -/
def subscript (k : Int) (m : List (Int × Game)) : List (Int × Game) :=
  insert k default m

/-- The object that the reference `games_[k]` denotes. -/
def get (k : Int) (m : List (Int × Game)) : Game := (find k m).getD default

/-- Storing through the reference `games_[k]`. -/
def put (k : Int) (g : Game) (m : List (Int × Game)) : List (Int × Game) :=
  m.map (fun p => if p.1 = k then (p.1, g) else p)

end Registry

/-! ## `class GameServer` -/

/-- The constant `SUCCESS_MSG[18]`: seventeen characters and the terminator. -/
def SUCCESS_MSG : List Char := "Congratulations!\n".toList ++ [NUL]

/-- The constant `buffer_size_`. -/
def buffer_size_ : Nat := 2048

/-- The fields of `GameServer` that the dispatcher uses, together with the
kernel-side state: `watch` is the interest list of the epoll instance
`epoll_` (descriptor and interest mask), `trace` the system calls issued so
far, oldest first. -/
structure GameServer where
  epoll_ : Int
  listening_socket_ : Int
  games_ : List (Int × Game)
  buffer_ : List Char
  stopped_ : Bool
  watch : List (Int × Nat)
  trace : List Syscall
  deriving DecidableEq, Repr

/-- Record a system call in the trace. -/
def sys (c : Syscall) (s : GameServer) : GameServer :=
  { s with trace := s.trace ++ [c] }

/-- Removal of a descriptor from the interest list.  The kernel does this when
the descriptor is closed, and `EPOLL_CTL_DEL` does it for an open one; on a
descriptor that is not in the list both leave the list as it is. -/
def unwatch (fd : Int) (s : GameServer) : GameServer :=
  { s with watch := s.watch.filter (fun p => decide (p.1 ≠ fd)) }

/-- The method `GameServer::MakeNonblocking`: `F_GETFL` then `F_SETFL`. -/
def MakeNonblocking (fd : Int) (s : GameServer) : GameServer :=
  sys (.fcntl fd) (sys (.fcntl fd) s)

/-- The method `GameServer::AddToEpoll`.  `EPOLL_CTL_ADD` fails, leaving the
interest list unchanged, on an invalid descriptor (`EBADF`) and on one that is
already listed (`EEXIST`); the return value is not inspected. -/
def AddToEpoll (fd : Int) (events : Nat) (s : GameServer) : GameServer :=
  let s := sys (.epoll_ctl_add fd events) s
  if 0 ≤ fd ∧ fd ∉ s.watch.map Prod.fst then
    { s with watch := s.watch ++ [(fd, events)] }
  else s

/-- The method `GameServer::CloseConnection`. -/
def CloseConnection (client : Int) (s : GameServer) : GameServer :=
  let s := sys (.shutdown client) s
  let s := unwatch client (sys (.close client) s)
  let s := { s with games_ := Registry.erase client s.games_ }
  unwatch client (sys (.epoll_ctl_del client) s)

/-- The method `GameServer::ShutdownServer`.  The loop visits the handles that
are in `games_` when it starts. -/
def ShutdownServer (s : GameServer) : GameServer :=
  let s := (Registry.keys s.games_).foldl (fun s k => CloseConnection k s) s
  let s := unwatch s.listening_socket_ (sys (.close s.listening_socket_) s)
  { sys (.close s.epoll_) s with watch := [] }

/-- The method `GameServer::GenerateWord`. -/
def GenerateWord : List Char := "hello".toList

/-- The method `GameServer::Attempts`. -/
def Attempts (word : List Char) : Int := word.length

/-- The method `GameServer::NewGame`. -/
def NewGame : Game :=
  let word := GenerateWord
  Game.new word (Attempts word)

/-- The call `read(fd, buffer_, buffer_size_)` seen from the buffer: at most
`buffer_size_` bytes overwrite its beginning; a failed or empty read stores
nothing. -/
def readInto (buffer : List Char) : Option (List Char) → List Char
  | none => buffer
  | some data => data.take buffer_size_ ++ buffer.drop (data.take buffer_size_).length

/-- One iteration of the masking loop of `ProcessEvent`:
`if (!game.guessed[i]) game.word[i] = '*';` -/
def maskStep (guessed : List Bool) (word : List Char) (i : Nat) : List Char :=
  if guessed.getD i false = false then word.set i '*' else word

/-- The masking loop of `ProcessEvent` on the local copy `game`. -/
def maskWord (game : Game) : Game :=
  { game with word := (List.range game.word.length).foldl (maskStep game.guessed) game.word }

/-- The client branch of `GameServer::ProcessEvent`. -/
def ProcessClient (fd : Int) (env : Env) (s : GameServer) : GameServer :=
  let s := { sys (.read fd) s with buffer_ := readInto s.buffer_ env.read_ret }
  let letter := s.buffer_.getD 0 NUL
  let games := Registry.subscript fd s.games_
  let r := (Registry.get fd games).Complete letter
  let completed := r.1
  let games := Registry.subscript fd (Registry.put fd r.2 games)
  let game := maskWord (Registry.get fd games)
  let s := sys (.write fd ((game.word ++ ['\n']).take game.word.length)) { s with games_ := games }
  if completed then
    CloseConnection fd (sys (.write fd SUCCESS_MSG) s)
  else s

/-- The method `GameServer::ProcessEvent`. -/
def ProcessEvent (event : epoll_event) (env : Env) (s : GameServer) : GameServer :=
  if event.events &&& EPOLLHUP ≠ 0 then
    CloseConnection event.fd s
  else if event.fd = s.listening_socket_ ∧ s.stopped_ = false then
    let client := env.accept_ret
    let s := sys (.accept s.listening_socket_) s
    let s := MakeNonblocking client s
    let s := AddToEpoll client EPOLLIN s
    { s with games_ := Registry.insert client NewGame s.games_ }
  else if event.fd = 0 then
    { s with stopped_ := true }
  else
    ProcessClient event.fd env s

/-- The inner loop of `Run`: the events of one batch, in order. -/
def dispatch (batch : List (epoll_event × Env)) (s : GameServer) : GameServer :=
  batch.foldl (fun s e => ProcessEvent e.1 e.2 s) s

/-- The loop of `GameServer::Run`, driven by the batches that successive calls
of `epoll_wait` deliver.  The result is the state in which the loop condition
is found false; it is `none` when the batches run out first, the server then
being blocked in `epoll_wait`. -/
def RunLoop : List (List (epoll_event × Env)) → GameServer → Option GameServer
  | [], s => if s.stopped_ = false ∨ s.games_ ≠ [] then none else some s
  | b :: bs, s =>
    if s.stopped_ = false ∨ s.games_ ≠ [] then
      RunLoop bs (dispatch b (sys .epoll_wait s))
    else some s

/-- The method `GameServer::Run`. -/
def Run (batches : List (List (epoll_event × Env))) (s : GameServer) : Option GameServer :=
  (RunLoop batches s).map ShutdownServer

/-- The bytes passed to `write` on descriptor `fd`, in order. -/
def writtenTo (fd : Int) : List Syscall → List Char
  | [] => []
  | .write fd2 bytes :: t => if fd2 = fd then bytes ++ writtenTo fd t else writtenTo fd t
  | _ :: t => writtenTo fd t

/-- The number of `accept` calls in a trace. -/
def acceptCount : List Syscall → Nat
  | [] => 0
  | .accept _ :: t => acceptCount t + 1
  | _ :: t => acceptCount t

/-- A server with listening socket 3, epoll descriptor 4 and the given
registry; the interest list holds the listening socket, standard input and
the registered handles. -/
def serverWith (games : List (Int × Game)) (buffer : List Char) (stopped : Bool) : GameServer :=
  { epoll_ := 4, listening_socket_ := 3, games_ := games, buffer_ := buffer,
    stopped_ := stopped,
    watch := [(3, EPOLLIN), (0, EPOLLIN)] ++ (Registry.keys games).map (fun k => (k, EPOLLIN)),
    trace := [] }

/-! ## The client branch in stages -/

/-- The letter that the client branch passes to `Complete`: `buffer_[0]` after
the read. -/
def guessOf (env : Env) (s : GameServer) : Char := (readInto s.buffer_ env.read_ret).getD 0 NUL

/-- The value of `completed` in the client branch. -/
def completedOf (fd : Int) (env : Env) (s : GameServer) : Bool :=
  ((Registry.get fd (Registry.subscript fd s.games_)).Complete (guessOf env s)).1

/-- The registry of the client branch after `Complete` and the second
evaluation of `games_[fd]`. -/
def gamesAfterGuess (fd : Int) (env : Env) (s : GameServer) : List (Int × Game) :=
  Registry.subscript fd
    (Registry.put fd ((Registry.get fd (Registry.subscript fd s.games_)).Complete (guessOf env s)).2
      (Registry.subscript fd s.games_))

/-- The bytes of the first `write` of the client branch. -/
def responseOf (fd : Int) (env : Env) (s : GameServer) : List Char :=
  ((maskWord (Registry.get fd (gamesAfterGuess fd env s))).word ++ ['\n']).take
    (maskWord (Registry.get fd (gamesAfterGuess fd env s))).word.length

/-- The state of the client branch after the first `write`. -/
def afterResponse (fd : Int) (env : Env) (s : GameServer) : GameServer :=
  { s with
    games_ := gamesAfterGuess fd env s
    buffer_ := readInto s.buffer_ env.read_ret
    trace := s.trace ++ [Syscall.read fd, Syscall.write fd (responseOf fd env s)] }

/-! ## The loop of `Game::Complete` -/

theorem getD_set_true (l : List Bool) (n i : Nat) :
    (l.set n true).getD i false = (l.getD i false || (decide (i = n) && decide (i < l.length))) := by
  simp only [List.getD_eq_getElem?_getD, List.getElem?_set]
  by_cases h : n = i
  · subst h
    by_cases hl : n < l.length
    · simp [hl]
    · simp [hl, List.getElem?_eq_none (Nat.le_of_not_lt hl)]
  · have h2 : ¬ i = n := fun e => h e.symm
    simp [h, h2]

theorem completeFold_spec (word : List Char) (letter : Char) (g : List Bool) (n : Nat) :
    ((List.range n).foldl (Game.CompleteStep word letter) (g, true)).1.length = g.length ∧
    (∀ i, ((List.range n).foldl (Game.CompleteStep word letter) (g, true)).1.getD i false
        = (g.getD i false ||
            (decide (i < n) && decide (i < g.length) && decide (letter = word.getD i NUL)))) ∧
    (((List.range n).foldl (Game.CompleteStep word letter) (g, true)).2 = true
        ↔ ∀ i, i < n → word.getD i NUL ≠ NUL) := by
  induction n with
  | zero => simp
  | succ n ih =>
    obtain ⟨ih1, ih2, ih3⟩ := ih
    rw [List.range_succ, List.foldl_append]
    simp only [List.foldl_cons, List.foldl_nil]
    generalize (List.range n).foldl (Game.CompleteStep word letter) (g, true) = r at ih1 ih2 ih3
    refine ⟨?_, ?_, ?_⟩
    · unfold Game.CompleteStep
      by_cases h : letter = word.getD n NUL
      · rw [if_pos h, List.length_set]; exact ih1
      · rw [if_neg h]; exact ih1
    · intro i
      unfold Game.CompleteStep
      by_cases h : letter = word.getD n NUL
      · simp only [h, if_true, getD_set_true, ih2, ih1]
        by_cases hi : i = n
        · subst hi; simp [← h]
        · have : i < n + 1 ↔ i < n := by omega
          simp [hi, this]
      · simp only [h, if_false, ih2]
        by_cases hi : i = n
        · subst hi
          rw [decide_eq_false h]
          simp
        · have : i < n + 1 ↔ i < n := by omega
          simp [this]
    · unfold Game.CompleteStep
      by_cases h : word.getD n NUL = NUL
      · simp only [h, if_true]
        constructor
        · intro hf; cases hf
        · intro hall; exact absurd h (hall n (Nat.lt_succ_self n))
      · simp only [h, if_false, ih3]
        constructor
        · intro hall i hi
          rcases Nat.lt_succ_iff_lt_or_eq.mp hi with hlt | heq
          · exact hall i hlt
          · subst heq; exact h
        · intro hall i hi
          exact hall i (Nat.lt_succ_of_lt hi)

theorem mem_iff_getD_NUL (word : List Char) :
    NUL ∈ word ↔ ∃ i, i < word.length ∧ word.getD i NUL = NUL := by
  constructor
  · intro h
    obtain ⟨i, hi, e⟩ := List.getElem_of_mem h
    exact ⟨i, hi, by simp [List.getD_eq_getElem?_getD, List.getElem?_eq_getElem hi, e]⟩
  · rintro ⟨i, hi, e⟩
    have : word.getD i NUL = word[i] := by
      simp [List.getD_eq_getElem?_getD, List.getElem?_eq_getElem hi]
    rw [this] at e
    rw [← e]
    exact List.getElem_mem hi

theorem Complete_word (g : Game) (letter : Char) : (g.Complete letter).2.word = g.word := rfl

theorem Complete_attempts (g : Game) (letter : Char) :
    (g.Complete letter).2.attempts = g.attempts := rfl

theorem Complete_guessed_length (g : Game) (letter : Char) :
    (g.Complete letter).2.guessed.length = g.guessed.length :=
  (completeFold_spec g.word letter g.guessed g.word.length).1

theorem Complete_guessed_getD (g : Game) (letter : Char) (i : Nat) :
    (g.Complete letter).2.guessed.getD i false
      = (g.guessed.getD i false ||
          (decide (i < g.word.length) && decide (i < g.guessed.length)
            && decide (letter = g.word.getD i NUL))) :=
  (completeFold_spec g.word letter g.guessed g.word.length).2.1 i

theorem Complete_flag (g : Game) (letter : Char) :
    (g.Complete letter).1 = true ↔ NUL ∉ g.word := by
  have h := (completeFold_spec g.word letter g.guessed g.word.length).2.2
  show ((List.range g.word.length).foldl (Game.CompleteStep g.word letter) (g.guessed, true)).2
      = true ↔ _
  rw [h, mem_iff_getD_NUL]
  constructor
  · rintro hall ⟨i, hi, e⟩; exact hall i hi e
  · intro hno i hi e; exact hno ⟨i, hi, e⟩

theorem after_invariant (word : List Char) (attempts : Int) (letters : List Char) :
    (Game.after word attempts letters).word = word ∧
    (Game.after word attempts letters).attempts = attempts ∧
    (Game.after word attempts letters).guessed.length = word.length := by
  unfold Game.after
  induction letters using List.reverseRecOn with
  | nil => simp [Game.new]
  | append_singleton ls l ih =>
    rw [List.foldl_append]
    simp only [List.foldl_cons, List.foldl_nil]
    rw [Complete_word, Complete_attempts, Complete_guessed_length]
    exact ih

/-! ## The registry -/

namespace Registry

theorem find_eq_none_iff (k : Int) (m : List (Int × Game)) :
    find k m = none ↔ k ∉ keys m := by
  induction m with
  | nil => simp [find, keys]
  | cons p m ih =>
    unfold find
    by_cases h : p.1 = k
    · simp [h, keys]
    · have h2 : ¬ k = p.1 := fun e => h e.symm
      simp only [h, if_false, ih]
      simp [keys, h2]

theorem mem_keys_erase (h k : Int) (m : List (Int × Game)) :
    h ∈ keys (erase k m) ↔ h ≠ k ∧ h ∈ keys m := by
  simp only [keys, erase, List.mem_map, List.mem_filter, decide_eq_true_eq]
  constructor
  · rintro ⟨p, ⟨hp, hne⟩, rfl⟩
    exact ⟨hne, p, hp, rfl⟩
  · rintro ⟨hne, p, hp, rfl⟩
    exact ⟨p, ⟨hp, hne⟩, rfl⟩

theorem find_erase_self (k : Int) (m : List (Int × Game)) : find k (erase k m) = none := by
  rw [find_eq_none_iff, mem_keys_erase]
  exact fun h => h.1 rfl

theorem find_erase_ne (h k : Int) (m : List (Int × Game)) (hne : h ≠ k) :
    find h (erase k m) = find h m := by
  induction m with
  | nil => rfl
  | cons p m ih =>
    by_cases hp : p.1 = k
    · have hph : ¬ p.1 = h := fun e => hne (e.symm.trans hp)
      have : erase k (p :: m) = erase k m := by simp [erase, hp]
      rw [this, ih]
      simp [find, hph]
    · have : erase k (p :: m) = p :: erase k m := by simp [erase, hp]
      rw [this]
      unfold find
      rw [ih]

theorem erase_erase (k : Int) (m : List (Int × Game)) : erase k (erase k m) = erase k m := by
  simp [erase, List.filter_filter]

theorem keys_put (k : Int) (g : Game) (m : List (Int × Game)) : keys (put k g m) = keys m := by
  induction m with
  | nil => rfl
  | cons p m ih =>
    simp only [keys, put, List.map_cons] at ih ⊢
    rw [ih]
    by_cases hp : p.1 = k <;> simp [hp]

theorem find_put_self (k : Int) (g : Game) (m : List (Int × Game)) (hk : k ∈ keys m) :
    find k (put k g m) = some g := by
  induction m with
  | nil => simp [keys] at hk
  | cons p m ih =>
    by_cases hp : p.1 = k
    · simp [put, find, hp]
    · have hk2 : k ∈ keys m := by
        simp only [keys, List.map_cons, List.mem_cons] at hk
        rcases hk with e | hm
        · exact absurd e.symm hp
        · exact hm
      have := ih hk2
      simp only [put] at this
      simp [put, find, hp, this]

theorem find_put_ne (h k : Int) (g : Game) (m : List (Int × Game)) (hne : h ≠ k) :
    find h (put k g m) = find h m := by
  induction m with
  | nil => rfl
  | cons p m ih =>
    simp only [put] at ih
    have hkh : ¬ k = h := fun e => hne e.symm
    by_cases hp : p.1 = k
    · have hph : ¬ p.1 = h := fun e => hne (e.symm.trans hp)
      simp [put, find, hp, hkh, ih]
    · by_cases hph : p.1 = h
      · simp [put, find, hne, hph]
      · simp [put, find, hp, hph, ih]

theorem find_append_of_none (k : Int) (m m2 : List (Int × Game)) (hk : find k m = none) :
    find k (m ++ m2) = find k m2 := by
  induction m with
  | nil => rfl
  | cons p m ih =>
    unfold find at hk
    by_cases hp : p.1 = k
    · simp [hp] at hk
    · simp only [hp, if_false] at hk
      simp [find, hp, ih hk]

theorem find_append_of_some (k : Int) (m m2 : List (Int × Game)) (hk : find k m ≠ none) :
    find k (m ++ m2) = find k m := by
  induction m with
  | nil => exact absurd rfl hk
  | cons p m ih =>
    unfold find at hk
    by_cases hp : p.1 = k
    · simp [find, hp]
    · simp only [hp, if_false] at hk
      simp [find, hp, ih hk]

theorem insert_of_mem (k : Int) (v : Game) (m : List (Int × Game)) (hk : k ∈ keys m) :
    insert k v m = m := by
  have : find k m ≠ none := fun e => (find_eq_none_iff k m).mp e hk
  unfold insert
  cases hf : find k m with
  | none => exact absurd hf this
  | some g => simp

theorem insert_of_not_mem (k : Int) (v : Game) (m : List (Int × Game)) (hk : k ∉ keys m) :
    insert k v m = m ++ [(k, v)] := by
  have : find k m = none := (find_eq_none_iff k m).mpr hk
  simp [insert, this]

theorem find_insert_self (k : Int) (v : Game) (m : List (Int × Game)) (hk : k ∉ keys m) :
    find k (insert k v m) = some v := by
  rw [insert_of_not_mem k v m hk, find_append_of_none k m _ ((find_eq_none_iff k m).mpr hk)]
  simp [find]

theorem find_insert_ne (h k : Int) (v : Game) (m : List (Int × Game)) (hne : h ≠ k) :
    find h (insert k v m) = find h m := by
  by_cases hk : k ∈ keys m
  · rw [insert_of_mem k v m hk]
  · rw [insert_of_not_mem k v m hk]
    cases hf : find h m with
    | none =>
      rw [find_append_of_none h m _ hf]
      have : ¬ k = h := fun e => hne e.symm
      simp [find, this]
    | some g =>
      rw [find_append_of_some h m _ (by rw [hf]; exact Option.some_ne_none g), hf]

theorem mem_keys_insert (k : Int) (v : Game) (m : List (Int × Game)) : k ∈ keys (insert k v m) := by
  by_cases hk : k ∈ keys m
  · rw [insert_of_mem k v m hk]; exact hk
  · rw [insert_of_not_mem k v m hk]; simp [keys]

theorem keys_insert_subset (h k : Int) (v : Game) (m : List (Int × Game))
    (hh : h ∈ keys (insert k v m)) : h = k ∨ h ∈ keys m := by
  by_cases hk : k ∈ keys m
  · rw [insert_of_mem k v m hk] at hh; exact Or.inr hh
  · rw [insert_of_not_mem k v m hk] at hh
    simp only [keys, List.map_append, List.mem_append, List.map_cons, List.map_nil,
      List.mem_singleton] at hh
    rcases hh with hm | e
    · exact Or.inr hm
    · exact Or.inl e

theorem get_subscript_of_not_mem (k : Int) (m : List (Int × Game)) (hk : k ∉ keys m) :
    get k (subscript k m) = default := by
  unfold get subscript
  rw [find_insert_self k default m hk]
  rfl

end Registry

/-! ## The dispatcher -/

theorem acceptCount_append (a b : List Syscall) :
    acceptCount (a ++ b) = acceptCount a + acceptCount b := by
  induction a with
  | nil => simp [acceptCount]
  | cons c a ih =>
    cases c <;> simp [acceptCount, ih]; omega

theorem writtenTo_append (fd : Int) (a b : List Syscall) :
    writtenTo fd (a ++ b) = writtenTo fd a ++ writtenTo fd b := by
  induction a with
  | nil => simp [writtenTo]
  | cons c a ih =>
    cases c <;> simp [writtenTo, ih]
    split <;> simp

theorem CloseConnection_games (h : Int) (s : GameServer) :
    (CloseConnection h s).games_ = Registry.erase h s.games_ := rfl

theorem CloseConnection_stopped (h : Int) (s : GameServer) :
    (CloseConnection h s).stopped_ = s.stopped_ := rfl

theorem CloseConnection_watch (h : Int) (s : GameServer) :
    (CloseConnection h s).watch = s.watch.filter (fun p => decide (p.1 ≠ h)) := by
  simp [CloseConnection, unwatch, sys, List.filter_filter]

theorem CloseConnection_trace (h : Int) (s : GameServer) :
    (CloseConnection h s).trace
      = s.trace ++ [Syscall.shutdown h, Syscall.close h, Syscall.epoll_ctl_del h] := by
  simp [CloseConnection, unwatch, sys]

theorem ProcessClient_eq (fd : Int) (env : Env) (s : GameServer) :
    ProcessClient fd env s =
      if completedOf fd env s = true then
        CloseConnection fd (sys (Syscall.write fd SUCCESS_MSG) (afterResponse fd env s))
      else afterResponse fd env s := by
  unfold ProcessClient completedOf afterResponse responseOf gamesAfterGuess guessOf sys
  simp only [List.append_assoc, List.singleton_append]

theorem ProcessClient_of_completed (fd : Int) (env : Env) (s : GameServer)
    (h : completedOf fd env s = true) :
    ProcessClient fd env s
      = CloseConnection fd (sys (Syscall.write fd SUCCESS_MSG) (afterResponse fd env s)) := by
  rw [ProcessClient_eq, if_pos h]

theorem ProcessClient_of_not_completed (fd : Int) (env : Env) (s : GameServer)
    (h : completedOf fd env s = false) :
    ProcessClient fd env s = afterResponse fd env s := by
  rw [ProcessClient_eq, if_neg (by simp [h])]

theorem ProcessClient_stopped (fd : Int) (env : Env) (s : GameServer) :
    (ProcessClient fd env s).stopped_ = s.stopped_ := by
  rw [ProcessClient_eq]; split <;> rfl

theorem ProcessClient_acceptCount (fd : Int) (env : Env) (s : GameServer) :
    acceptCount (ProcessClient fd env s).trace = acceptCount s.trace := by
  rw [ProcessClient_eq]; split
  · rw [CloseConnection_trace]
    simp [sys, afterResponse, acceptCount_append, acceptCount]
  · simp [afterResponse, acceptCount_append, acceptCount]

theorem Complete_default (letter : Char) : ((default : Game).Complete letter).1 = true := by
  rw [Complete_flag]
  exact List.not_mem_nil NUL

theorem completedOf_of_not_mem (fd : Int) (env : Env) (s : GameServer)
    (hk : fd ∉ Registry.keys s.games_) : completedOf fd env s = true := by
  unfold completedOf
  rw [Registry.get_subscript_of_not_mem fd s.games_ hk]
  exact Complete_default _

theorem gamesAfterGuess_keys_subset (h fd : Int) (env : Env) (s : GameServer)
    (hh : h ∈ Registry.keys (gamesAfterGuess fd env s)) : h = fd ∨ h ∈ Registry.keys s.games_ := by
  unfold gamesAfterGuess Registry.subscript at hh
  rcases Registry.keys_insert_subset h fd _ _ hh with e | hm
  · exact Or.inl e
  · rw [Registry.keys_put] at hm
    exact Registry.keys_insert_subset h fd _ _ hm

theorem ProcessClient_keys_subset (h fd : Int) (env : Env) (s : GameServer)
    (hh : h ∈ Registry.keys (ProcessClient fd env s).games_) : h ∈ Registry.keys s.games_ := by
  by_cases hc : completedOf fd env s = true
  · rw [ProcessClient_of_completed fd env s hc, CloseConnection_games,
      Registry.mem_keys_erase] at hh
    rcases gamesAfterGuess_keys_subset h fd env s hh.2 with e | hm
    · exact absurd e hh.1
    · exact hm
  · have hfd : fd ∈ Registry.keys s.games_ := by
      by_contra hk
      exact hc (completedOf_of_not_mem fd env s hk)
    rw [ProcessClient_of_not_completed fd env s (by simpa using hc)] at hh
    rcases gamesAfterGuess_keys_subset h fd env s hh with e | hm
    · rw [e]; exact hfd
    · exact hm

theorem ProcessClient_trace (fd : Int) (env : Env) (s : GameServer) :
    ∃ rest, (ProcessClient fd env s).trace
      = s.trace ++ [Syscall.read fd, Syscall.write fd (responseOf fd env s)] ++ rest := by
  by_cases hc : completedOf fd env s = true
  · rw [ProcessClient_of_completed fd env s hc, CloseConnection_trace]
    exact ⟨[Syscall.write fd SUCCESS_MSG, Syscall.shutdown fd, Syscall.close fd,
      Syscall.epoll_ctl_del fd], by simp [sys, afterResponse]⟩
  · rw [ProcessClient_of_not_completed fd env s (by simpa using hc)]
    exact ⟨[], by simp [afterResponse]⟩

theorem ProcessClient_buffer (fd : Int) (env : Env) (s : GameServer) :
    (ProcessClient fd env s).buffer_ = readInto s.buffer_ env.read_ret := by
  rw [ProcessClient_eq]; split <;> rfl

theorem gamesAfterGuess_find_ne (h fd : Int) (env : Env) (s : GameServer) (hne : h ≠ fd) :
    Registry.find h (gamesAfterGuess fd env s) = Registry.find h s.games_ := by
  unfold gamesAfterGuess Registry.subscript
  rw [Registry.find_insert_ne h fd _ _ hne, Registry.find_put_ne h fd _ _ hne,
    Registry.find_insert_ne h fd _ _ hne]

theorem ProcessClient_find_ne (h fd : Int) (env : Env) (s : GameServer) (hne : h ≠ fd) :
    Registry.find h (ProcessClient fd env s).games_ = Registry.find h s.games_ := by
  by_cases hc : completedOf fd env s = true
  · rw [ProcessClient_of_completed fd env s hc, CloseConnection_games,
      Registry.find_erase_ne h fd _ hne]
    exact gamesAfterGuess_find_ne h fd env s hne
  · rw [ProcessClient_of_not_completed fd env s (by simpa using hc)]
    exact gamesAfterGuess_find_ne h fd env s hne

theorem ProcessEvent_client (s : GameServer) (event : epoll_event) (env : Env)
    (hnohup : event.events &&& EPOLLHUP = 0)
    (hnl : ¬ (event.fd = s.listening_socket_ ∧ s.stopped_ = false)) (h0 : event.fd ≠ 0) :
    ProcessEvent event env s = ProcessClient event.fd env s := by
  unfold ProcessEvent
  rw [if_neg (by simp [hnohup]), if_neg hnl, if_neg h0]

theorem readInto_stale (buffer : List Char) (r : Option (List Char))
    (hr : r = none ∨ r = some []) : readInto buffer r = buffer := by
  rcases hr with e | e <;> subst e <;> simp [readInto]

theorem readInto_same (buffer : List Char) (hb : buffer ≠ []) :
    readInto buffer (some [buffer.getD 0 NUL]) = buffer := by
  cases buffer with
  | nil => exact absurd rfl hb
  | cons c t => simp [readInto, buffer_size_]

theorem RunLoop_exit (batches : List (List (epoll_event × Env))) :
    ∀ (s t : GameServer), RunLoop batches s = some t → t.stopped_ = true ∧ t.games_ = [] := by
  induction batches with
  | nil =>
    intro s t h
    unfold RunLoop at h
    split at h
    · cases h
    · rename_i hc
      cases h
      simpa using hc
  | cons b bs ih =>
    intro s t h
    unfold RunLoop at h
    split at h
    · exact ih _ t h
    · rename_i hc
      cases h
      simpa using hc

/-! ## Theorems for the claims -/

/-- C4. An event whose flags include `EPOLLHUP`, with or without `EPOLLIN`, on
a handle (registered as a client connection or not) is handled by
`CloseConnection` of that handle and by nothing else: the handle leaves the registry and the interest list, the only
system calls issued are `shutdown`, `close` and `EPOLL_CTL_DEL` on it (no
`read`, no `write`), the stopped flag and the buffer are as before, and the
session and the interest-list entries of every other handle are as before. -/
theorem ProcessEvent_hangup (s : GameServer) (event : epoll_event) (env : Env)
    (hup : event.events &&& EPOLLHUP ≠ 0) :
    ProcessEvent event env s = CloseConnection event.fd s ∧
    event.fd ∉ Registry.keys (ProcessEvent event env s).games_ ∧
    event.fd ∉ (ProcessEvent event env s).watch.map Prod.fst ∧
    (ProcessEvent event env s).trace
      = s.trace ++ [Syscall.shutdown event.fd, Syscall.close event.fd,
          Syscall.epoll_ctl_del event.fd] ∧
    writtenTo event.fd (ProcessEvent event env s).trace = writtenTo event.fd s.trace ∧
    (ProcessEvent event env s).stopped_ = s.stopped_ ∧
    (ProcessEvent event env s).buffer_ = s.buffer_ ∧
    (∀ h, h ≠ event.fd →
      Registry.find h (ProcessEvent event env s).games_ = Registry.find h s.games_) ∧
    (∀ p : Int × Nat, p.1 ≠ event.fd → (p ∈ (ProcessEvent event env s).watch ↔ p ∈ s.watch)) := by
  have he : ProcessEvent event env s = CloseConnection event.fd s := by
    unfold ProcessEvent
    rw [if_pos hup]
  rw [he]
  refine ⟨rfl, ?_, ?_, CloseConnection_trace _ _, ?_, rfl, rfl, ?_, ?_⟩
  · rw [CloseConnection_games, Registry.mem_keys_erase]
    exact fun h => h.1 rfl
  · rw [CloseConnection_watch]
    simp [List.mem_filter]
  · rw [CloseConnection_trace, writtenTo_append]
    simp [writtenTo]
  · intro h hne
    rw [CloseConnection_games]
    exact Registry.find_erase_ne h event.fd s.games_ hne
  · intro p hp
    rw [CloseConnection_watch]
    simp [List.mem_filter, hp]

/-- C4, at a concrete input: handles 5 and 6 are registered and the event on 5
carries both `EPOLLIN` and `EPOLLHUP`. -/
theorem ProcessEvent_hangup_witness :
    (EPOLLIN ||| EPOLLHUP) &&& EPOLLHUP ≠ 0 ∧
    (5 : Int) ∈ Registry.keys
      (serverWith [(5, Game.new ['c', 'a', 't'] 3), (6, NewGame)] ['c'] false).games_ ∧
    ProcessEvent ⟨EPOLLIN ||| EPOLLHUP, 5⟩ ⟨7, some ['a']⟩
        (serverWith [(5, Game.new ['c', 'a', 't'] 3), (6, NewGame)] ['c'] false)
      = CloseConnection 5
        (serverWith [(5, Game.new ['c', 'a', 't'] 3), (6, NewGame)] ['c'] false) :=
  ⟨by decide, by decide,
    (ProcessEvent_hangup
      (serverWith [(5, Game.new ['c', 'a', 't'] 3), (6, NewGame)] ['c'] false)
      ⟨EPOLLIN ||| EPOLLHUP, 5⟩ ⟨7, some ['a']⟩ (by decide)).1⟩

/-- C7. In a state whose stopped flag is set, `ProcessEvent` on any event (any
flags, any handle, any answers of the environment) issues no `accept`, leaves
the flag set, and leaves no handle in the registry that was not there before
the event. -/
theorem ProcessEvent_draining (s : GameServer) (event : epoll_event) (env : Env)
    (hs : s.stopped_ = true) :
    acceptCount (ProcessEvent event env s).trace = acceptCount s.trace ∧
    (ProcessEvent event env s).stopped_ = true ∧
    (∀ h, h ∈ Registry.keys (ProcessEvent event env s).games_ → h ∈ Registry.keys s.games_) := by
  unfold ProcessEvent
  split
  · refine ⟨?_, hs, ?_⟩
    · rw [CloseConnection_trace, acceptCount_append]
      simp [acceptCount]
    · intro h hh
      rw [CloseConnection_games, Registry.mem_keys_erase] at hh
      exact hh.2
  · split
    · rename_i hl
      rw [hs] at hl
      exact absurd hl.2 (by decide)
    · split
      · exact ⟨rfl, rfl, fun h hh => hh⟩
      · refine ⟨ProcessClient_acceptCount _ _ _, ?_, fun h hh => ProcessClient_keys_subset h _ _ _ hh⟩
        rw [ProcessClient_stopped]
        exact hs

/-- C7, at a concrete input: a draining server with one session, and the
listening socket 3 becomes readable with a connection pending. -/
theorem ProcessEvent_draining_witness :
    (serverWith [(5, Game.new ['c', 'a', 't'] 3)] ['c'] true).stopped_ = true ∧
    acceptCount (ProcessEvent ⟨EPOLLIN, 3⟩ ⟨7, none⟩
      (serverWith [(5, Game.new ['c', 'a', 't'] 3)] ['c'] true)).trace = 0 ∧
    (ProcessEvent ⟨EPOLLIN, 3⟩ ⟨7, none⟩
      (serverWith [(5, Game.new ['c', 'a', 't'] 3)] ['c'] true)).stopped_ = true :=
  ⟨rfl,
    (ProcessEvent_draining (serverWith [(5, Game.new ['c', 'a', 't'] 3)] ['c'] true)
      ⟨EPOLLIN, 3⟩ ⟨7, none⟩ rfl).1,
    (ProcessEvent_draining (serverWith [(5, Game.new ['c', 'a', 't'] 3)] ['c'] true)
      ⟨EPOLLIN, 3⟩ ⟨7, none⟩ rfl).2.1⟩

/-- C9. For every state and every handle, registered or not, a second
`CloseConnection` leaves the registry and the interest list as the first one
left them; after it the handle is in neither, and the session and the
interest-list entries of every other handle are as before the first call. -/
theorem CloseConnection_idempotent (s : GameServer) (h : Int) :
    (CloseConnection h (CloseConnection h s)).games_ = (CloseConnection h s).games_ ∧
    (CloseConnection h (CloseConnection h s)).watch = (CloseConnection h s).watch ∧
    Registry.find h (CloseConnection h s).games_ = none ∧
    h ∉ Registry.keys (CloseConnection h s).games_ ∧
    h ∉ (CloseConnection h s).watch.map Prod.fst ∧
    (∀ k, k ≠ h → Registry.find k (CloseConnection h s).games_ = Registry.find k s.games_) ∧
    (∀ p : Int × Nat, p.1 ≠ h → (p ∈ (CloseConnection h s).watch ↔ p ∈ s.watch)) := by
  refine ⟨?_, ?_, ?_, ?_, ?_, ?_, ?_⟩
  · simp only [CloseConnection_games, Registry.erase_erase]
  · simp only [CloseConnection_watch, List.filter_filter, Bool.and_self]
  · rw [CloseConnection_games]
    exact Registry.find_erase_self h s.games_
  · rw [CloseConnection_games, Registry.mem_keys_erase]
    exact fun hh => hh.1 rfl
  · rw [CloseConnection_watch]
    simp [List.mem_filter]
  · intro k hne
    rw [CloseConnection_games]
    exact Registry.find_erase_ne k h s.games_ hne
  · intro p hp
    rw [CloseConnection_watch]
    simp [List.mem_filter, hp]

/-- C9, at a concrete input: handle 5 is registered, handle 6 keeps its
session. -/
theorem CloseConnection_idempotent_witness :
    (6 : Int) ≠ 5 ∧
    Registry.find 6
        (CloseConnection 5
          (serverWith [(5, Game.new ['c', 'a', 't'] 3), (6, NewGame)] [] false)).games_
      = Registry.find 6
        (serverWith [(5, Game.new ['c', 'a', 't'] 3), (6, NewGame)] [] false).games_ :=
  ⟨by decide,
    (CloseConnection_idempotent
      (serverWith [(5, Game.new ['c', 'a', 't'] 3), (6, NewGame)] [] false) 5).2.2.2.2.2.1
      6 (by decide)⟩

/-- C8. The loop of `Run` is left, and `ShutdownServer` called, only in a state
whose stopped flag is set and whose registry is empty.  In a state whose
stopped flag is set while a session remains, the loop does not end: it calls
`epoll_wait` again and dispatches the batch it gets, and it is blocked there
when no batch comes. -/
theorem Run_exit_condition (batches : List (List (epoll_event × Env))) (s : GameServer) :
    (∀ t, RunLoop batches s = some t → t.stopped_ = true ∧ t.games_ = []) ∧
    Run batches s = (RunLoop batches s).map ShutdownServer ∧
    (∀ u, Run batches s = some u →
      ∃ t, t.stopped_ = true ∧ t.games_ = [] ∧ u = ShutdownServer t) ∧
    (s.stopped_ = true → s.games_ ≠ [] →
      RunLoop [] s = none ∧
      ∀ b bs, RunLoop (b :: bs) s = RunLoop bs (dispatch b (sys Syscall.epoll_wait s))) := by
  refine ⟨fun t h => RunLoop_exit batches s t h, rfl, ?_, ?_⟩
  · intro u hu
    unfold Run at hu
    cases hr : RunLoop batches s with
    | none => rw [hr] at hu; cases hu
    | some t =>
      rw [hr] at hu
      cases hu
      exact ⟨t, (RunLoop_exit batches s t hr).1, (RunLoop_exit batches s t hr).2, rfl⟩
  · intro _ hg
    constructor
    · unfold RunLoop
      rw [if_pos (Or.inr hg)]
    · intro b bs
      rw [RunLoop, if_pos (Or.inr hg)]

/-- C8, at a concrete input: a draining server with one session keeps waiting,
and leaves the loop after the batch in which that session hangs up. -/
theorem Run_exit_condition_witness :
    (serverWith [(5, Game.new ['c', 'a', 't'] 3)] ['c'] true).stopped_ = true ∧
    (serverWith [(5, Game.new ['c', 'a', 't'] 3)] ['c'] true).games_ ≠ [] ∧
    RunLoop [] (serverWith [(5, Game.new ['c', 'a', 't'] 3)] ['c'] true) = none ∧
    (RunLoop [[(⟨EPOLLHUP, 5⟩, ⟨-1, none⟩)]]
      (serverWith [(5, Game.new ['c', 'a', 't'] 3)] ['c'] true)).isSome = true :=
  ⟨rfl, by decide,
    ((Run_exit_condition [] (serverWith [(5, Game.new ['c', 'a', 't'] 3)] ['c'] true)).2.2.2
      rfl (by decide)).1,
    by decide⟩

/-- C1 (the code at the failing input). With word `cat` and nothing revealed,
`Complete('c')` returns `true` although positions 1 and 2 of `guessed` are
still `false` after the update. -/
theorem Complete_true_while_unrevealed :
    ((Game.new ['c', 'a', 't'] 3).Complete 'c').1 = true ∧
    ((Game.new ['c', 'a', 't'] 3).Complete 'c').2.guessed = [true, false, false] ∧
    ((Game.new ['c', 'a', 't'] 3).Complete 'c').2.guessed.length
      = ((Game.new ['c', 'a', 't'] 3).Complete 'c').2.word.length := by
  decide

/-- C2. For a `Game` built by `Game(word, attempts)` and updated by any
sequence of `Complete` calls, one more call `Complete(letter)` leaves `word`
and `attempts` as they were, keeps `guessed` as long as `word`, and at every
position `i < word.size()` sets `guessed[i]` to
`guessed[i] || word[i] == letter`. -/
theorem Complete_update (word : List Char) (attempts : Int) (letters : List Char)
    (letter : Char) (i : Nat) (hi : i < word.length) :
    ((Game.after word attempts letters).Complete letter).2.word = word ∧
    (Game.after word attempts letters).word = word ∧
    ((Game.after word attempts letters).Complete letter).2.attempts = attempts ∧
    (Game.after word attempts letters).attempts = attempts ∧
    ((Game.after word attempts letters).Complete letter).2.guessed.length = word.length ∧
    (Game.after word attempts letters).guessed.length = word.length ∧
    ((Game.after word attempts letters).Complete letter).2.guessed.getD i false
      = ((Game.after word attempts letters).guessed.getD i false
          || decide (word.getD i NUL = letter)) := by
  obtain ⟨hw, ha, hl⟩ := after_invariant word attempts letters
  refine ⟨?_, hw, ?_, ha, ?_, hl, ?_⟩
  · rw [Complete_word, hw]
  · rw [Complete_attempts, ha]
  · rw [Complete_guessed_length, hl]
  · rw [Complete_guessed_getD, hw, hl]
    have e : decide (letter = word.getD i NUL) = decide (word.getD i NUL = letter) := by
      by_cases h : letter = word.getD i NUL
      · simp [h]
      · have h2 : ¬ word.getD i NUL = letter := fun e => h e.symm
        rw [decide_eq_false h, decide_eq_false h2]
    rw [e]
    simp [hi]

/-- C2, at a concrete input: word `cat`, after the guesses `c` and `x`, the
guess `t` at position 2. -/
theorem Complete_update_witness :
    2 < ['c', 'a', 't'].length ∧
    ((Game.after ['c', 'a', 't'] 3 ['c', 'x']).Complete 't').2.guessed.getD 2 false
      = ((Game.after ['c', 'a', 't'] 3 ['c', 'x']).guessed.getD 2 false
          || decide (['c', 'a', 't'].getD 2 NUL = 't')) :=
  ⟨by decide, (Complete_update ['c', 'a', 't'] 3 ['c', 'x'] 't' 2 (by decide)).2.2.2.2.2.2⟩

/-- C10 (counterexample). The generated word `hello` contains no terminator.
After the guesses `h`, `e`, `l` the guess `o` reveals the last position, every
position of `guessed` is then `true`, and `Complete('o')` does not return
`false`. -/
theorem Complete_hello_revealed_not_false :
    NUL ∉ GenerateWord ∧
    ((Game.after GenerateWord (Attempts GenerateWord) ['h', 'e', 'l']).Complete 'o').2.guessed
      = [true, true, true, true, true] ∧
    ¬ (((Game.after GenerateWord (Attempts GenerateWord) ['h', 'e', 'l']).Complete 'o').1
      = false) := by
  decide

/-- C10 (amended). For every `Game` whose word contains no terminator character
and whose `guessed` is as long as its word, and for every letter: if after the
update every position of `guessed` is `true`, then `Complete(letter)` returns
`true`, which is the value of "every position revealed". -/
theorem Complete_wellformed_revealed (g : Game) (letter : Char) (hw : NUL ∉ g.word)
    (hlen : g.guessed.length = g.word.length)
    (hall : ∀ b, b ∈ (g.Complete letter).2.guessed → b = true) :
    (g.Complete letter).1 = true ∧
    (g.Complete letter).1 = (g.Complete letter).2.guessed.all id ∧
    (g.Complete letter).2.guessed.length = (g.Complete letter).2.word.length := by
  have h1 : (g.Complete letter).1 = true := (Complete_flag g letter).mpr hw
  have h2 : (g.Complete letter).2.guessed.all id = true := by
    rw [List.all_eq_true]
    intro b hb
    rw [hall b hb]
    rfl
  refine ⟨h1, ?_, ?_⟩
  · rw [h1, h2]
  · rw [Complete_guessed_length, Complete_word, hlen]

/-- C10 (amended), at a concrete input: the word `hello` with `h`, `e`, `l`
revealed, and the guess `o`. -/
theorem Complete_wellformed_revealed_witness :
    NUL ∉ (Game.after GenerateWord (Attempts GenerateWord) ['h', 'e', 'l']).word ∧
    ((Game.after GenerateWord (Attempts GenerateWord) ['h', 'e', 'l']).Complete 'o').1 = true :=
  ⟨by decide,
    (Complete_wellformed_revealed (Game.after GenerateWord (Attempts GenerateWord) ['h', 'e', 'l'])
      'o' (by decide) (by decide) (by decide)).1⟩

/-- C3 (the code at the failing input). With content `cat`, nothing revealed
and the guess `c` read on handle 5, the first `write` passes the 3 bytes `c**`
without a newline, and it is followed at once by the 18 bytes of
`SUCCESS_MSG` and by the teardown of the connection. -/
theorem ProcessEvent_response_cat :
    (ProcessEvent ⟨EPOLLIN, 5⟩ ⟨-1, some ['c']⟩
      (serverWith [(5, Game.new ['c', 'a', 't'] 3)] (List.replicate buffer_size_ NUL) false)).trace
      = [Syscall.read 5, Syscall.write 5 ['c', '*', '*'], Syscall.write 5 SUCCESS_MSG,
          Syscall.shutdown 5, Syscall.close 5, Syscall.epoll_ctl_del 5] ∧
    writtenTo 5 (ProcessEvent ⟨EPOLLIN, 5⟩ ⟨-1, some ['c']⟩
      (serverWith [(5, Game.new ['c', 'a', 't'] 3)] (List.replicate buffer_size_ NUL) false)).trace
      ≠ ['c', '*', '*', '\n'] ∧
    (ProcessEvent ⟨EPOLLIN, 5⟩ ⟨-1, some ['c']⟩
      (serverWith [(5, Game.new ['c', 'a', 't'] 3)] (List.replicate buffer_size_ NUL) false)).games_
      = [] := by
  decide

/-- C6 (counterexample). An accepting server with an empty registry whose
`accept` returns `-1`: after the event the registry holds a session under the
handle `-1`, so it is not the registry of before. -/
theorem ProcessEvent_accept_failed_registry :
    (serverWith [] (List.replicate buffer_size_ NUL) false).stopped_ = false ∧
    (ProcessEvent ⟨EPOLLIN, 3⟩ ⟨-1, none⟩
      (serverWith [] (List.replicate buffer_size_ NUL) false)).games_ = [(-1, NewGame)] ∧
    (ProcessEvent ⟨EPOLLIN, 3⟩ ⟨-1, none⟩
      (serverWith [] (List.replicate buffer_size_ NUL) false)).games_
      ≠ (serverWith [] (List.replicate buffer_size_ NUL) false).games_ := by
  decide

/-- C6 (amended). When an accepting server gets a readable event on the
listening socket and `accept` returns `-1`, the interest list, the stopped
flag and the buffer after the event equal those before it, and the session of
every handle other than `-1` is unchanged; the registry is the one that
`games_.insert` of a new game under the key `-1` yields, so `-1` is a key of
it. -/
theorem ProcessEvent_accept_failed (s : GameServer) (event : epoll_event) (env : Env)
    (hnohup : event.events &&& EPOLLHUP = 0) (hl : event.fd = s.listening_socket_)
    (hs : s.stopped_ = false) (hacc : env.accept_ret = -1) :
    (ProcessEvent event env s).watch = s.watch ∧
    (ProcessEvent event env s).stopped_ = s.stopped_ ∧
    (ProcessEvent event env s).buffer_ = s.buffer_ ∧
    (ProcessEvent event env s).games_ = Registry.insert (-1) NewGame s.games_ ∧
    (-1 : Int) ∈ Registry.keys (ProcessEvent event env s).games_ ∧
    (∀ h, h ≠ -1 →
      Registry.find h (ProcessEvent event env s).games_ = Registry.find h s.games_) ∧
    (ProcessEvent event env s).trace
      = s.trace ++ [Syscall.accept s.listening_socket_, Syscall.fcntl (-1), Syscall.fcntl (-1),
          Syscall.epoll_ctl_add (-1) EPOLLIN] := by
  have he : ProcessEvent event env s =
      { AddToEpoll (-1) EPOLLIN (MakeNonblocking (-1) (sys (Syscall.accept s.listening_socket_) s))
        with games_ := Registry.insert (-1) NewGame s.games_ } := by
    unfold ProcessEvent
    rw [if_neg (by simp [hnohup]), if_pos ⟨hl, hs⟩, hacc]
    rfl
  have ha : ∀ t : GameServer, AddToEpoll (-1) EPOLLIN t = sys (Syscall.epoll_ctl_add (-1) EPOLLIN) t := by
    intro t
    unfold AddToEpoll
    simp
  rw [he, ha]
  refine ⟨rfl, rfl, rfl, rfl, Registry.mem_keys_insert _ _ _, ?_, ?_⟩
  · intro h hne
    exact Registry.find_insert_ne h (-1) NewGame s.games_ hne
  · simp [sys, MakeNonblocking]

/-- C6 (amended), at a concrete input: listening socket 3, one session on
handle 5, `accept` returns `-1`. -/
theorem ProcessEvent_accept_failed_witness :
    EPOLLIN &&& EPOLLHUP = 0 ∧
    (serverWith [(5, NewGame)] ['c'] false).stopped_ = false ∧
    (ProcessEvent ⟨EPOLLIN, 3⟩ ⟨-1, none⟩ (serverWith [(5, NewGame)] ['c'] false)).games_
      = Registry.insert (-1) NewGame (serverWith [(5, NewGame)] ['c'] false).games_ :=
  ⟨by decide, rfl,
    (ProcessEvent_accept_failed (serverWith [(5, NewGame)] ['c'] false) ⟨EPOLLIN, 3⟩ ⟨-1, none⟩
      (by decide) rfl rfl rfl).2.2.2.1⟩

/-- C5 (counterexample). Handle 5 holds a fresh session for `cat` and the
buffer starts with a stale `c`.  A readable event whose `read` returns zero
bytes, and one whose `read` fails, both make the server write `c**` and
`SUCCESS_MSG` to the handle, whereas `CloseConnection` writes nothing. -/
theorem ProcessEvent_empty_read_writes :
    writtenTo 5 (ProcessEvent ⟨EPOLLIN, 5⟩ ⟨-1, some []⟩
      (serverWith [(5, Game.new ['c', 'a', 't'] 3)] ['c', 'x'] false)).trace
      = ['c', '*', '*'] ++ SUCCESS_MSG ∧
    writtenTo 5 (ProcessEvent ⟨EPOLLIN, 5⟩ ⟨-1, none⟩
      (serverWith [(5, Game.new ['c', 'a', 't'] 3)] ['c', 'x'] false)).trace
      = ['c', '*', '*'] ++ SUCCESS_MSG ∧
    writtenTo 5 (CloseConnection 5
      (serverWith [(5, Game.new ['c', 'a', 't'] 3)] ['c', 'x'] false)).trace = [] ∧
    ProcessEvent ⟨EPOLLIN, 5⟩ ⟨-1, some []⟩
      (serverWith [(5, Game.new ['c', 'a', 't'] 3)] ['c', 'x'] false)
      ≠ CloseConnection 5 (serverWith [(5, Game.new ['c', 'a', 't'] 3)] ['c', 'x'] false) := by
  decide

/-- C5 (amended). A readable event on a client handle whose `read` returns
zero bytes or fails is not handled as a hang-up.  The buffer keeps its
contents, the stale byte `buffer_[0]` is the letter passed to `Complete` on
that handle's session, the event is processed exactly as one whose `read`
stored that same byte, a `read` and a `write` on the handle are issued (so the
result is not that of `CloseConnection`), and the session of every other
handle is unchanged. -/
theorem ProcessEvent_empty_read (s : GameServer) (event : epoll_event) (env : Env)
    (hnohup : event.events &&& EPOLLHUP = 0)
    (hnl : ¬ (event.fd = s.listening_socket_ ∧ s.stopped_ = false)) (h0 : event.fd ≠ 0)
    (hr : env.read_ret = none ∨ env.read_ret = some []) :
    (ProcessEvent event env s).buffer_ = s.buffer_ ∧
    guessOf env s = s.buffer_.getD 0 NUL ∧
    (s.buffer_ ≠ [] →
      ProcessEvent event env s
        = ProcessEvent event ⟨env.accept_ret, some [s.buffer_.getD 0 NUL]⟩ s) ∧
    (∃ rest, (ProcessEvent event env s).trace
      = s.trace ++ [Syscall.read event.fd, Syscall.write event.fd (responseOf event.fd env s)]
          ++ rest) ∧
    ProcessEvent event env s ≠ CloseConnection event.fd s ∧
    (∀ h, h ≠ event.fd →
      Registry.find h (ProcessEvent event env s).games_ = Registry.find h s.games_) := by
  have hst : readInto s.buffer_ env.read_ret = s.buffer_ := readInto_stale _ _ hr
  rw [ProcessEvent_client s event env hnohup hnl h0]
  refine ⟨?_, ?_, ?_, ProcessClient_trace _ _ _, ?_, ?_⟩
  · rw [ProcessClient_buffer, hst]
  · unfold guessOf; rw [hst]
  · intro hb
    rw [ProcessEvent_client s event _ hnohup hnl h0]
    unfold ProcessClient
    simp only [hst, readInto_same s.buffer_ hb]
  · intro he
    obtain ⟨rest, ht⟩ := ProcessClient_trace event.fd env s
    rw [he, CloseConnection_trace] at ht
    rw [List.append_assoc] at ht
    have hc := List.append_cancel_left ht
    simp at hc
  · intro h hne
    exact ProcessClient_find_ne h event.fd env s hne

/-- C5 (amended), at a concrete input: handle 5 with a session for `cat`, the
buffer starting with `c`, and a `read` that returns zero bytes. -/
theorem ProcessEvent_empty_read_witness :
    EPOLLIN &&& EPOLLHUP = 0 ∧
    (ProcessEvent ⟨EPOLLIN, 5⟩ ⟨-1, some []⟩
      (serverWith [(5, Game.new ['c', 'a', 't'] 3)] ['c', 'x'] false)).buffer_ = ['c', 'x'] ∧
    guessOf ⟨-1, some []⟩ (serverWith [(5, Game.new ['c', 'a', 't'] 3)] ['c', 'x'] false) = 'c' :=
  ⟨by decide,
    (ProcessEvent_empty_read (serverWith [(5, Game.new ['c', 'a', 't'] 3)] ['c', 'x'] false)
      ⟨EPOLLIN, 5⟩ ⟨-1, some []⟩ (by decide) (by decide) (by decide) (Or.inr rfl)).1,
    (ProcessEvent_empty_read (serverWith [(5, Game.new ['c', 'a', 't'] 3)] ['c', 'x'] false)
      ⟨EPOLLIN, 5⟩ ⟨-1, some []⟩ (by decide) (by decide) (by decide) (Or.inr rfl)).2.1⟩

end FieldOfDreams
